import Mathlib

/-!
Shallow embedding of the `debug_log` Rust crate (src/lib.rs, the
`cfg(debug_assertions)` build, plus the `cfg(not(debug_assertions))` stub at the
end). Rust strings are modelled as lists of characters; the process-wide
mutable statics `DEBUG` and `LEVELS` together with the sink's output stream are
threaded explicitly through a `LogState`.
-/

namespace DebugLog

/-- Rust `String` / `&str`, modelled as a list of characters. -/
abbrev RStr := List Char

/-- A Lean string literal viewed as an `RStr`. -/
def str (s : String) : RStr := s.toList

/-- Rust `str::contains(needle)`: substring containment. -/
def containsSub : RStr → RStr → Bool
  | [], needle => needle.isEmpty
  | c :: t, needle => needle.isPrefixOf (c :: t) || containsSub t needle

/-- Rust `s.split('\n')`: splits at every newline keeping empty pieces; the
result is always nonempty (`""` splits to `[""]`, `"a\n"` to `["a", ""]`). -/
def splitLines : RStr → List RStr
  | [] => [[]]
  | c :: rest =>
    let r := splitLines rest
    if c = '\n' then [] :: r else (c :: r.headI) :: r.tail

/-- Rust `s.repeat(n)`: `s` concatenated `n` times. -/
def strRepeat (s : RStr) : Nat → RStr
  | 0 => []
  | n + 1 => s ++ strRepeat s n

/-- The indent unit used throughout the crate: four spaces. -/
def INDENT_UNIT : RStr := str ("    ")

/-- `"    ".repeat(level)`. -/
def indentOf (level : Nat) : RStr := strRepeat INDENT_UNIT level

/-- The process state of the debug engine: the `DEBUG` filter (static `DEBUG`,
an `Option<String>`), the stack of open group labels (static `LEVELS`,
a `Vec<String>`), and the chronological list of strings handed to the sink
(`eprintln!` / host console). -/
structure LogState where
  debug : Option RStr
  levels : List RStr
  writes : List RStr
  deriving DecidableEq

/-- The value of `file!()` for macro expansions that happen inside the crate's
own source (in the bodies of `indent`, `outdent`, `dbg`): the crate file. -/
def LIB_FILE : RStr := str ("src/lib.rs")

/-- `should_log` (src/lib.rs lines 197-201):
absent filter is disabled; otherwise enabled iff the filter is nonempty and is
either the wildcard `*` or a substring of the queried location. -/
def should_log (d : Option RStr) (file : RStr) : Bool :=
  match d with
  | none => false
  | some x => !x.isEmpty && (x == ['*'] || containsSub file x)

/-- `set_debug` (lines 80-82): replaces the filter with `Some(s)`. -/
def set_debug (st : LogState) (s : RStr) : LogState := { st with debug := some s }

/-- `get_level` (lines 144-146): the depth is the length of `LEVELS`. -/
def get_level (st : LogState) : Nat := st.levels.length

/-- `inner_println!` (lines 121-141): writes one string through the sink, but
only when `should_log(file!())` holds; `gate` is the value of `file!()` at the
macro's ultimate expansion site. -/
def inner_println (gate : RStr) (st : LogState) (s : RStr) : LogState :=
  if should_log st.debug gate then { st with writes := st.writes ++ [s] } else st

/-- `indent` (lines 149-153): prints `<indent><name> \x7b` at the current level
(the `inner_println!` here expands inside src/lib.rs, so its gate is
`LIB_FILE`), then pushes the name onto `LEVELS`. -/
def indent (st : LogState) (name : RStr) : LogState :=
  let space := indentOf (get_level st)
  let st1 := inner_println LIB_FILE st (space ++ name ++ str (" \x7b"))
  { st1 with levels := st1.levels ++ [name] }

/-- `outdent` (lines 156-160): pops `LEVELS` (Rust `Vec::pop` on an empty
vector is a no-op), then prints `<indent>\x7d` at the new level; the
`inner_println!` gate is again `LIB_FILE`. -/
def outdent (st : LogState) : LogState :=
  let st1 := { st with levels := st.levels.dropLast }
  let space := indentOf (get_level st1)
  inner_println LIB_FILE st1 (space ++ str ("\x7d"))

/-- The enumerate-indexed rendering loop shared by `dbg` (lines 168-174) and
`prepend_indent` (lines 186-192): every line gets a trailing newline, and lines
whose enumerate index is nonzero are prefixed with the indent. -/
def joinIndented (ind : RStr) : List RStr → Nat → RStr
  | [], _ => []
  | l :: rest, i =>
    (if i == 0 then [] else ind) ++ l ++ ['\n'] ++ joinIndented ind rest (i + 1)

/-- The trailing-newline trim performed by `dbg` (lines 176-178). -/
def trimNewline (s : RStr) : RStr :=
  if s.getLast? == some '\n' then s.dropLast else s

/-- The string built by `dbg` (lines 163-181) for a value whose `\x7b:#?\x7d`
representation is `valueRepr`: indent, `[loc] name = ` prefix, then the
re-indented lines of the representation, with the final newline trimmed. -/
def dbgRender (level : Nat) (loc name valueRepr : RStr) : RStr :=
  let ind := indentOf level
  let ans := ind ++ str ("[") ++ loc ++ str ("] ") ++ name ++ str (" = ")
      ++ joinIndented ind (splitLines valueRepr) 0
  trimNewline ans

/-- `dbg` (lines 163-181) as a state transformer; its `inner_println!` expands
inside src/lib.rs, so the write is gated on `LIB_FILE`. -/
def dbg (st : LogState) (valueRepr name loc : RStr) : LogState :=
  inner_println LIB_FILE st (dbgRender (get_level st) loc name valueRepr)

/-- `prepend_indent` (lines 184-194); unlike `dbg` it does not trim the final
newline, so the result always ends in `'\n'`. -/
def prepend_indent (st : LogState) (s : RStr) : RStr :=
  joinIndented (indentOf (get_level st)) (splitLines s) 0

/-- The `debug_log!` macro (lines 254-262) expanded at a call site in file
`file` at line `lineNo`: `line = file!() + ":" + line!()`; the nested
`inner_println!` re-expands at the same call site, so its gate is `file`. -/
def debug_log (st : LogState) (file lineNo msg : RStr) : LogState :=
  let loc := file ++ str (":") ++ lineNo
  if should_log st.debug loc then
    let pfx := indentOf (get_level st) ++ str ("[") ++ loc ++ str ("] ")
    inner_println file st (pfx ++ prepend_indent st msg)
  else st

/-- The `debug_dbg!` macro (lines 236-242) for a single value. -/
def debug_dbg (st : LogState) (file lineNo name valueRepr : RStr) : LogState :=
  let loc := file ++ str (":") ++ lineNo
  if should_log st.debug loc then dbg st valueRepr name loc else st

/-- The `group!` macro (lines 205-216): evaluates the filter at the call site's
`file:line`; when it permits, calls `indent` and binds `Some(GroupGuard)`,
otherwise binds `None`. The Bool records whether the guard is present. -/
def groupOpen (st : LogState) (file lineNo label : RStr) : LogState × Bool :=
  let loc := file ++ str (":") ++ lineNo
  if should_log st.debug loc then (indent st label, true) else (st, false)

/-- Scope exit: dropping the bound `Option<GroupGuard>` (lines 226-232).
`Some` runs `GroupGuard::drop`, which calls `outdent`; `None` does nothing. -/
def groupClose (st : LogState) (active : Bool) : LogState :=
  if active then outdent st else st

/-- Client programs against the debug-build API: sequencing, a lexical scope
holding a `group!` at its head (the guard drops when the scope is left),
`debug_log!`, `debug_dbg!`, `set_debug`, and an early return. -/
inductive Act where
  | skip : Act
  | seq : Act → Act → Act
  | grp : RStr → RStr → RStr → Act → Act
  | logMsg : RStr → RStr → RStr → Act
  | dbgVal : RStr → RStr → RStr → RStr → Act
  | setDbg : RStr → Act
  | earlyReturn : Act

/-- Execution with Rust drop semantics. The Bool means "an early return is
propagating": it skips the rest of every sequence, but each guard opened by an
enclosing scope is still dropped (`groupClose`) when that scope is left —
cleanup is structural, independent of how the scope was exited. -/
def exec : Act → LogState → LogState × Bool
  | .skip, st => (st, false)
  | .seq a b, st =>
    let r := exec a st
    if r.2 then r else exec b r.1
  | .grp file lineNo label body, st =>
    let o := groupOpen st file lineNo label
    let r := exec body o.1
    (groupClose r.1 o.2, r.2)
  | .logMsg file lineNo msg, st => (debug_log st file lineNo msg, false)
  | .dbgVal file lineNo name valueRepr, st =>
    (debug_dbg st file lineNo name valueRepr, false)
  | .setDbg s, st => (set_debug st s, false)
  | .earlyReturn, st => (st, true)

/-- The release build (`cfg(not(debug_assertions))`, lines 271-298):
`set_debug` has an empty body. -/
def set_debug_release (st : LogState) (_s : RStr) : LogState := st

/-- Release-build execution (lines 271-298): every macro expands to nothing and
`GroupGuard` has no `Drop` impl, so a group scope merely runs its body; only
control flow (sequencing, early return) remains. -/
def exec_release : Act → LogState → LogState × Bool
  | .skip, st => (st, false)
  | .seq a b, st =>
    let r := exec_release a st
    if r.2 then r else exec_release b r.1
  | .grp _ _ _ body, st => exec_release body st
  | .logMsg _ _ _, st => (st, false)
  | .dbgVal _ _ _ _, st => (st, false)
  | .setDbg s, st => (set_debug_release st s, false)
  | .earlyReturn, st => (st, true)

/-- The observable lines of the sink's stream: `eprintln!` terminates every
write with a newline, so a written string `w` contributes the lines
`splitLines w` (a `w` that itself ends in a newline contributes a blank line). -/
def outputLines (writes : List RStr) : List RStr := (writes.map splitLines).flatten

/-- Joining a nonempty list of lines with single newlines between them (the
normal form of what the rendering loop builds, before the trailing newline). -/
def linesJoin : List RStr → RStr
  | [] => []
  | [l] => l
  | l :: ls => l ++ '\n' :: linesJoin ls

/-! ### Basic lemmas about the string helpers -/

theorem splitLines_ne_nil : ∀ (s : RStr), splitLines s ≠ []
  | [] => by simp [splitLines]
  | c :: rest => by
    simp only [splitLines]
    split <;> simp

theorem not_mem_nl_splitLines : ∀ (s : RStr), ∀ l ∈ splitLines s, '\n' ∉ l
  | [] => by intro l hl; simp [splitLines] at hl; simp [hl]
  | c :: rest => by
    intro l hl
    have ih := not_mem_nl_splitLines rest
    rcases hsp : splitLines rest with _ | ⟨h, t⟩
    · exact absurd hsp (splitLines_ne_nil rest)
    · simp only [splitLines, hsp] at hl
      by_cases hc : c = '\n'
      · rw [if_pos hc] at hl
        rcases List.mem_cons.mp hl with hl | hl
        · simp [hl]
        · exact ih l (by rw [hsp]; exact hl)
      · rw [if_neg hc] at hl
        rcases List.mem_cons.mp hl with hl | hl
        · subst hl
          intro hm
          rcases List.mem_cons.mp hm with hm | hm
          · exact hc hm.symm
          · exact ih h (by rw [hsp]; exact List.mem_cons_self h t) hm
        · exact ih l (by rw [hsp]; exact List.mem_cons_of_mem h hl)

theorem splitLines_append_cons :
    ∀ (a b : RStr), '\n' ∉ a → splitLines (a ++ '\n' :: b) = a :: splitLines b
  | [], b, _ => by simp [splitLines]
  | c :: a', b, hna => by
    have hc : ¬ (c = '\n') := fun hcc => hna (by simp [hcc])
    have ih := splitLines_append_cons a' b (fun hm => hna (List.mem_cons_of_mem _ hm))
    show splitLines (c :: (a' ++ '\n' :: b)) = (c :: a') :: splitLines b
    simp only [splitLines, if_neg hc]
    rw [ih]
    rfl

theorem splitLines_of_no_nl : ∀ (a : RStr), '\n' ∉ a → splitLines a = [a]
  | [], _ => by simp [splitLines]
  | c :: a', hna => by
    have hc : ¬ (c = '\n') := fun hcc => hna (by simp [hcc])
    have ih := splitLines_of_no_nl a' (fun hm => hna (List.mem_cons_of_mem _ hm))
    simp only [splitLines, if_neg hc]
    rw [ih]
    rfl

theorem splitLines_linesJoin :
    ∀ (L : List RStr), L ≠ [] → (∀ l ∈ L, '\n' ∉ l) → splitLines (linesJoin L) = L
  | [], h, _ => absurd rfl h
  | [l], _, hn => by simp [linesJoin, splitLines_of_no_nl l (hn l (by simp))]
  | l :: l' :: ls, _, hn => by
    have ih := splitLines_linesJoin (l' :: ls) (by simp)
      (fun x hx => hn x (List.mem_cons_of_mem _ hx))
    simp only [linesJoin]
    rw [splitLines_append_cons _ _ (hn l (by simp)), ih]

theorem joinIndented_pos (ind : RStr) :
    ∀ (t : List RStr) (i : Nat),
      joinIndented ind t (i + 1) = (t.map (fun l => ind ++ l ++ ['\n'])).flatten
  | [], _ => by simp [joinIndented]
  | l :: rest, i => by
    have ih := joinIndented_pos ind rest (i + 1)
    simp [joinIndented, ih, List.append_assoc]

theorem flatten_map_concat_nl :
    ∀ (L : List RStr), L ≠ [] →
      (L.map (fun l => l ++ ['\n'])).flatten = linesJoin L ++ ['\n']
  | [], h => absurd rfl h
  | [l], _ => by simp [linesJoin]
  | l :: l' :: ls, _ => by
    have ih := flatten_map_concat_nl (l' :: ls) (by simp)
    simp only [List.map_cons, List.flatten_cons, linesJoin] at ih ⊢
    rw [ih]
    simp [List.append_assoc]

theorem trimNewline_concat (xs : RStr) : trimNewline (xs ++ ['\n']) = xs := by
  simp [trimNewline, List.getLast?_concat, List.dropLast_concat]

theorem not_mem_strRepeat {c : Char} {s : RStr} (hc : c ∉ s) :
    ∀ (n : Nat), c ∉ strRepeat s n
  | 0 => by simp [strRepeat]
  | n + 1 => by
    have ih := not_mem_strRepeat hc n
    simp [strRepeat, List.mem_append]
    exact ⟨hc, ih⟩

theorem not_mem_nl_indentOf (level : Nat) : '\n' ∉ indentOf level :=
  not_mem_strRepeat (by decide) level

theorem containsSub_iff : ∀ (hay n : RStr), containsSub hay n = true ↔ n <:+: hay
  | [], n => by
    simp [containsSub, List.isEmpty_iff, List.infix_nil]
  | c :: t, n => by
    have ih := containsSub_iff t n
    simp [containsSub, List.infix_cons_iff, List.isPrefixOf_iff_prefix, ih]

/-! ### State lemmas: which fields each operation touches -/

theorem inner_println_levels (gate : RStr) (st : LogState) (s : RStr) :
    (inner_println gate st s).levels = st.levels := by
  simp only [inner_println]
  split <;> rfl

theorem inner_println_debug (gate : RStr) (st : LogState) (s : RStr) :
    (inner_println gate st s).debug = st.debug := by
  simp only [inner_println]
  split <;> rfl

theorem indent_levels (st : LogState) (name : RStr) :
    (indent st name).levels = st.levels ++ [name] := by
  simp only [indent]
  rw [inner_println_levels]

theorem outdent_levels (st : LogState) :
    (outdent st).levels = st.levels.dropLast := by
  simp only [outdent]
  rw [inner_println_levels]

theorem dbg_levels (st : LogState) (valueRepr name loc : RStr) :
    (dbg st valueRepr name loc).levels = st.levels :=
  inner_println_levels _ _ _

theorem debug_log_levels (st : LogState) (file lineNo msg : RStr) :
    (debug_log st file lineNo msg).levels = st.levels := by
  simp only [debug_log]
  split
  · exact inner_println_levels _ _ _
  · rfl

theorem debug_dbg_levels (st : LogState) (file lineNo name valueRepr : RStr) :
    (debug_dbg st file lineNo name valueRepr).levels = st.levels := by
  simp only [debug_dbg]
  split
  · exact dbg_levels _ _ _ _
  · rfl

/-- Core invariance: executing any program restores the `LEVELS` stack exactly,
no matter how its scopes are exited. -/
theorem exec_preserves_levels (a : Act) : ∀ (st : LogState), (exec a st).1.levels = st.levels := by
  induction a with
  | skip => intro st; rfl
  | seq a b iha ihb =>
    intro st
    simp only [exec]
    rcases hr : exec a st with ⟨st1, esc⟩
    have ha : st1.levels = st.levels := by
      have := iha st
      rw [hr] at this
      exact this
    cases esc
    · simpa using (ihb st1).trans ha
    · simpa using ha
  | grp file lineNo label body ih =>
    intro st
    simp only [exec, groupOpen]
    split
    · have hbody := ih (indent st label)
      simp only [groupClose, if_pos]
      rw [outdent_levels, hbody, indent_levels, List.dropLast_concat]
    · have hbody := ih st
      simpa [groupClose] using hbody
  | logMsg file lineNo msg => intro st; simpa using debug_log_levels st file lineNo msg
  | dbgVal file lineNo name valueRepr =>
    intro st
    simpa using debug_dbg_levels st file lineNo name valueRepr
  | setDbg s => intro st; rfl
  | earlyReturn => intro st; rfl

/-- Release-build execution is the identity on the state. -/
theorem exec_release_id (a : Act) : ∀ (st : LogState), (exec_release a st).1 = st := by
  induction a with
  | skip => intro st; rfl
  | seq a b iha ihb =>
    intro st
    simp only [exec_release]
    rcases hr : exec_release a st with ⟨st1, esc⟩
    have ha : st1 = st := by
      have := iha st
      rw [hr] at this
      exact this
    cases esc
    · simpa using (ihb st1).trans ha
    · simpa using ha
  | grp file lineNo label body ih => intro st; simpa [exec_release] using ih st
  | logMsg file lineNo msg => intro st; rfl
  | dbgVal file lineNo name valueRepr => intro st; rfl
  | setDbg s => intro st; rfl
  | earlyReturn => intro st; rfl

/-! ### The line structure of the rendered block -/

/-- The central rendering lemma: trimming the final newline off
`P ++ joinIndented ind lines 0` and re-splitting yields the first line attached
to `P` and every later line prefixed with exactly `ind`. -/
theorem splitLines_trim_join (ind P : RStr) (hP : '\n' ∉ P) (hind : '\n' ∉ ind) :
    ∀ (lines : List RStr), lines ≠ [] → (∀ l ∈ lines, '\n' ∉ l) →
      splitLines (trimNewline (P ++ joinIndented ind lines 0)) =
        (P ++ lines.headI) :: lines.tail.map (fun l => ind ++ l)
  | [], h, _ => absurd rfl h
  | [h], _, hn => by
    have hh : '\n' ∉ h := hn h (by simp)
    have e1 : P ++ joinIndented ind [h] 0 = (P ++ h) ++ ['\n'] := by
      simp [joinIndented, List.append_assoc]
    rw [e1, trimNewline_concat, splitLines_of_no_nl]
    · simp
    · intro hm
      rcases List.mem_append.mp hm with hm | hm
      · exact hP hm
      · exact hh hm
  | h :: x :: t', _, hn => by
    have hh : '\n' ∉ h := hn h (by simp)
    have hT : ∀ y ∈ (x :: t').map (fun l => ind ++ l), '\n' ∉ y := by
      intro y hy
      rcases List.mem_map.mp hy with ⟨l, hl, rfl⟩
      intro hm
      rcases List.mem_append.mp hm with hm | hm
      · exact hind hm
      · exact hn l (List.mem_cons_of_mem _ hl) hm
    have e0 : joinIndented ind (h :: x :: t') 0 =
        h ++ ['\n'] ++ ((x :: t').map (fun l => ind ++ l ++ ['\n'])).flatten := by
      simp [joinIndented, joinIndented_pos, List.append_assoc]
    have emap : (x :: t').map (fun l => ind ++ l ++ ['\n']) =
        ((x :: t').map (fun l => ind ++ l)).map (fun l => l ++ ['\n']) := by
      rw [List.map_map]
      rfl
    have e2 : ((x :: t').map (fun l => ind ++ l ++ ['\n'])).flatten =
        linesJoin ((x :: t').map (fun l => ind ++ l)) ++ ['\n'] := by
      rw [emap, flatten_map_concat_nl _ (by simp)]
    have e3 : P ++ joinIndented ind (h :: x :: t') 0 =
        ((P ++ h) ++ '\n' :: linesJoin ((x :: t').map (fun l => ind ++ l))) ++ ['\n'] := by
      rw [e0, e2]
      simp [List.append_assoc]
    rw [e3, trimNewline_concat, splitLines_append_cons, splitLines_linesJoin]
    · simp
    · simp
    · exact hT
    · intro hm
      rcases List.mem_append.mp hm with hm | hm
      · exact hP hm
      · exact hh hm

/-! ### Concrete states and scenarios used by the claims -/

/-- The all-pass initial state: filter `*`, no open groups, empty stream. -/
def stStar : LogState := ⟨some ['*'], [], []⟩

/-- The spec's nested scenario: open group "A", open nested group "B",
`debug_log!("x")`, close both (closes happen by scope exit). -/
def scenarioNested : Act :=
  Act.grp (str ("f.rs")) (str ("1")) (str ("A"))
    (Act.seq
      (Act.grp (str ("f.rs")) (str ("2")) (str ("B"))
        (Act.logMsg (str ("f.rs")) (str ("3")) (str ("x"))))
      Act.skip)

/-! ### Claims -/

/-- C1: the claim says a group open at a call site the filter permits always
writes the open line. The code violates it: with filter `mod1`, the call-site
check at `mod1/file.ext:10` passes, but `indent`'s internal `inner_println!`
re-checks `should_log("src/lib.rs")`, which fails, so no open line is written
even though the depth is pushed. This theorem evaluates the code at that
failing input: the filter permits the call site, yet `groupOpen` produces an
active guard, increments the depth, and writes nothing. -/
theorem C1_enabled_group_open_line_suppressed :
    should_log (some (str ("mod1")))
        (str ("mod1/file.ext") ++ str (":") ++ str ("10")) = true ∧
    groupOpen ⟨some (str ("mod1")), [], []⟩ (str ("mod1/file.ext")) (str ("10"))
        (str ("A")) =
      (⟨some (str ("mod1")), [str ("A")], []⟩, true) := by
  decide

/-- C2: the filter predicate `should_log(L)` is false when the filter is absent
or empty, true for every `L` when the filter is `*`, and otherwise true iff `L`
contains the filter as a substring. -/
theorem C2_filter_predicate (L F : RStr) :
    should_log none L = false ∧
    should_log (some []) L = false ∧
    should_log (some ['*']) L = true ∧
    (F ≠ [] → F ≠ ['*'] → (should_log (some F) L = true ↔ F <:+: L)) := by
  refine ⟨rfl, rfl, by simp [should_log], ?_⟩
  intro hne hstar
  have h1 : F.isEmpty = false := by simpa [List.isEmpty_iff] using hne
  have h2 : (F == ['*']) = false := beq_eq_false_iff_ne.mpr hstar
  simp [should_log, h1, h2, containsSub_iff]

/-- Witness for C2: filter `mod1` lets location `mod1/file.ext:10` log and
blocks `mod2/file.ext:20`. -/
theorem C2_filter_predicate_witness :
    should_log (some (str ("mod1"))) (str ("mod1/file.ext:10")) = true ∧
    should_log (some (str ("mod1"))) (str ("mod2/file.ext:20")) = false := by
  constructor
  · exact ((C2_filter_predicate (str ("mod1/file.ext:10")) (str ("mod1"))).2.2.2
      (by decide) (by decide)).mpr (by decide)
  · cases hb : should_log (some (str ("mod1"))) (str ("mod2/file.ext:20")) with
    | false => rfl
    | true =>
      exact absurd (((C2_filter_predicate (str ("mod2/file.ext:20")) (str ("mod1"))).2.2.2
        (by decide) (by decide)).mp hb) (by decide)

/-- C3: every properly nested (stack-like) sequence of group opens and closes —
which is exactly what scope-bound guards can produce, including scopes left by
an early return — restores the depth to its pre-sequence value; the depth is a
list length, hence never negative, and each push is undone by exactly one pop. -/
theorem C3_nesting_depth_restored (a : Act) (st : LogState) :
    (exec a st).1.levels = st.levels ∧ get_level (exec a st).1 = get_level st := by
  refine ⟨exec_preserves_levels a st, ?_⟩
  show (exec a st).1.levels.length = st.levels.length
  rw [exec_preserves_levels a st]

/-- C4: the claim expects exactly the five lines `A \x7b`, `    B \x7b`,
`        [loc] x`, `    \x7d`, `\x7d`. The code emits a sixth, blank line after
the message, because `prepend_indent` leaves a trailing newline on the message
and the sink appends its own terminator. This theorem evaluates the scenario:
the five expected lines appear in order, but with an extra blank line after the
message, and the depth does return to zero. -/
theorem C4_scenario_emits_extra_blank_line :
    outputLines ((exec scenarioNested stStar).1.writes) =
      [str ("A \x7b"), str ("    B \x7b"), str ("        [f.rs:3] x"), [],
        str ("    \x7d"), str ("\x7d")] ∧
    (exec scenarioNested stStar).1.levels = [] := by
  decide

/-- C5: a group call site the filter denies yields an inert handle: the state
is completely untouched at open, destruction of the inert handle is a no-op,
and the spec's scenario (filter absent, open group, log a message) produces no
output and ends with depth 0. -/
theorem C5_denied_group_inert (st : LogState) (file lineNo label : RStr)
    (h : should_log st.debug (file ++ str (":") ++ lineNo) = false) :
    groupOpen st file lineNo label = (st, false) ∧
    groupClose st false = st ∧
    exec (Act.grp (str ("g.rs")) (str ("1")) (str ("A"))
        (Act.logMsg (str ("g.rs")) (str ("2")) (str ("x")))) ⟨none, [], []⟩ =
      (⟨none, [], []⟩, false) := by
  refine ⟨?_, rfl, by decide⟩
  have h' : should_log st.debug (file ++ (str (":") ++ lineNo)) = false := by
    rw [← List.append_assoc]
    exact h
  simp [groupOpen, h']

/-- Witness for C5: with the filter absent, opening a group is inert. -/
theorem C5_denied_group_inert_witness :
    groupOpen ⟨none, [], []⟩ (str ("g.rs")) (str ("9")) (str ("A")) =
      (⟨none, [], []⟩, false) :=
  (C5_denied_group_inert ⟨none, [], []⟩ (str ("g.rs")) (str ("9")) (str ("A"))
    (by decide)).1

/-- C6: the claim says the trailing newline is trimmed on both rendering paths.
The value-dump path (`dbg`) does trim it, but the free-form message path
(`prepend_indent`) does not: rendering the one-line message `x` yields
`x\n`, which the sink turns into two lines (the message plus a blank one),
while the dump path yields exactly one line for a one-line value. -/
theorem C6_message_path_keeps_trailing_newline :
    prepend_indent stStar (str ("x")) = ['x', '\n'] ∧
    (splitLines (prepend_indent stStar (str ("x")))).length = 2 ∧
    (splitLines (dbgRender 0 (str ("a:1")) (str ("v")) (str ("x")))).length = 1 := by
  decide

/-- C7: `dbg` rendering at any depth: line 1 is the indented
`[loc] name = ` prefix with the value's first line attached, and every later
line of the value is indented by exactly the current depth's indent — a
single-line value therefore gets no indentation beyond the prefix. -/
theorem C7_dbg_indentation (level : Nat) (loc name valueRepr : RStr)
    (hloc : '\n' ∉ loc) (hname : '\n' ∉ name) :
    splitLines (dbgRender level loc name valueRepr) =
      (indentOf level ++ str ("[") ++ loc ++ str ("] ") ++ name ++ str (" = ")
          ++ (splitLines valueRepr).headI)
        :: (splitLines valueRepr).tail.map (fun l => indentOf level ++ l) := by
  have hP : '\n' ∉ indentOf level ++ str ("[") ++ loc ++ str ("] ")
      ++ name ++ str (" = ") := by
    intro hm
    rcases List.mem_append.mp hm with hm | hm
    · rcases List.mem_append.mp hm with hm | hm
      · rcases List.mem_append.mp hm with hm | hm
        · rcases List.mem_append.mp hm with hm | hm
          · rcases List.mem_append.mp hm with hm | hm
            · exact not_mem_nl_indentOf level hm
            · exact (by decide : '\n' ∉ str ("[")) hm
          · exact hloc hm
        · exact (by decide : '\n' ∉ str ("] ")) hm
      · exact hname hm
    · exact (by decide : '\n' ∉ str (" = ")) hm
  exact splitLines_trim_join (indentOf level)
    (indentOf level ++ str ("[") ++ loc ++ str ("] ") ++ name ++ str (" = "))
    hP (not_mem_nl_indentOf level) (splitLines valueRepr) (splitLines_ne_nil valueRepr)
    (not_mem_nl_splitLines valueRepr)

/-- Witness for C7: a three-line value at depth 1. -/
theorem C7_dbg_indentation_witness :
    splitLines (dbgRender 1 (str ("a:1")) (str ("v")) (str ("[\n  0,\n]"))) =
      [str ("    [a:1] v = ["), str ("      0,"), str ("    ]")] := by
  rw [C7_dbg_indentation 1 (str ("a:1")) (str ("v")) (str ("[\n  0,\n]"))
    (by decide) (by decide)]
  decide

/-- C8: disabling the filter while groups are open does not corrupt the depth
bookkeeping: a guard created while logging was enabled still pops exactly one
level when dropped, a group opened after disabling leaves the state completely
untouched, and in the scenario (filter `*`, open "A", disable, open "B", leave
both scopes) the depth ends at zero. -/
theorem C8_disable_filter_bookkeeping (st : LogState) (s file lineNo label : RStr)
    (h : should_log (some s) (file ++ str (":") ++ lineNo) = false) :
    groupOpen (set_debug st s) file lineNo label = (set_debug st s, false) ∧
    (groupClose (set_debug st s) true).levels = st.levels.dropLast ∧
    (exec (Act.grp (str ("h.rs")) (str ("1")) (str ("A"))
        (Act.seq (Act.setDbg []) (Act.grp (str ("h.rs")) (str ("2")) (str ("B")) Act.skip)))
      stStar).1.levels = [] := by
  refine ⟨?_, ?_, by decide⟩
  · have h' : should_log (some s) (file ++ (str (":") ++ lineNo)) = false := by
      rw [← List.append_assoc]
      exact h
    simp [groupOpen, set_debug, h']
  · show (outdent (set_debug st s)).levels = st.levels.dropLast
    rw [outdent_levels]
    rfl

/-- Witness for C8: after disabling with the empty filter, a new group open
leaves the state untouched even though a group is still open. -/
theorem C8_disable_filter_bookkeeping_witness :
    groupOpen (set_debug ⟨some ['*'], [str ("A")], []⟩ []) (str ("h.rs")) (str ("3"))
        (str ("B")) =
      (set_debug ⟨some ['*'], [str ("A")], []⟩ [], false) :=
  (C8_disable_filter_bookkeeping ⟨some ['*'], [str ("A")], []⟩ [] (str ("h.rs"))
    (str ("3")) (str ("B")) (by decide)).1

/-- Counterexample to C9 as stated: closing a group that was never opened is
not free of observable effects — at depth zero with filter `*`, `outdent`
still writes a close line `\x7d` to the sink, so the state changes. -/
theorem C9_counterexample_close_at_depth_zero_writes :
    outdent stStar ≠ stStar ∧ (outdent stStar).writes = [str ("\x7d")] := by
  decide

/-- C9 (amended): closing a group that was never opened does not panic and
leaves the depth at zero and the filter untouched; its only possible effect is
writing a close line `\x7d` at indent zero (which happens exactly when the
filter enables the crate's own source path). -/
theorem C9_amended_close_at_depth_zero (st : LogState) (h : st.levels = []) :
    (outdent st).levels = [] ∧ (outdent st).debug = st.debug ∧
    ((outdent st).writes = st.writes ∨
      (outdent st).writes = st.writes ++ [str ("\x7d")]) := by
  refine ⟨?_, ?_, ?_⟩
  · rw [outdent_levels, h]
    rfl
  · simp [outdent, inner_println_debug]
  · simp only [outdent, inner_println]
    split
    · right
      rw [h]
      rfl
    · left
      rfl

/-- Witness for C9 (amended): at depth zero with a filter that does not match
the crate's source path, `outdent` leaves depth at zero. -/
theorem C9_amended_close_at_depth_zero_witness :
    (outdent ⟨some (str ("zzz")), [], [str ("q")]⟩).levels = [] ∧
    (outdent ⟨some (str ("zzz")), [], [str ("q")]⟩).debug =
      (⟨some (str ("zzz")), [], [str ("q")]⟩ : LogState).debug ∧
    ((outdent ⟨some (str ("zzz")), [], [str ("q")]⟩).writes =
        (⟨some (str ("zzz")), [], [str ("q")]⟩ : LogState).writes ∨
      (outdent ⟨some (str ("zzz")), [], [str ("q")]⟩).writes =
        (⟨some (str ("zzz")), [], [str ("q")]⟩ : LogState).writes ++ [str ("\x7d")]) :=
  C9_amended_close_at_depth_zero ⟨some (str ("zzz")), [], [str ("q")]⟩ rfl

/-- C10: in the release build every operation of the facility is a true no-op:
running any program — groups, messages, value dumps, filter changes, early
returns — leaves the entire state (filter, depth, output stream) unchanged,
and `set_debug` itself is the identity. -/
theorem C10_release_build_noop (a : Act) (st : LogState) (s : RStr) :
    (exec_release a st).1 = st ∧ set_debug_release st s = st ∧
    (exec_release a st).1.writes = st.writes := by
  refine ⟨exec_release_id a st, rfl, ?_⟩
  rw [exec_release_id a st]

end DebugLog
